import Mathlib

/-!
Verification of the BewerbungsManager letter-generation core
(`services/textgen.py` and `services/pdfgen.py`) via a shallow embedding.

Conventions of the embedding:
* Python strings are modelled as `List Char`; Python `str.split()`,
  `str.strip()`, `str.split('\n')` and friends are re-implemented below with
  the same semantics on the characters relevant to the source.
* Python floats are modelled as `ℚ` (all arithmetic in the source is exact
  decimal/rational arithmetic on millimetre constants, far away from any
  float rounding boundary used in a comparison).
* ReportLab's `stringWidth(text, font, size)` is modelled by a caller-supplied
  width table `W : String → Char → ℚ` (font name → per-character width at the
  fixed 11pt body size); for the standard Type1/TTF fonts used by the source
  the width of a string is the sum of its glyph widths.
* A `dict` context for the template renderer is modelled as a total function
  `String → Option (Option String)`: `none` = key absent, `some none` = key
  present with Python `None`, `some (some s)` = key present with string `s`.
* Jinja2's `SandboxedEnvironment` (constructed without `undefined=` override
  in `TextGenerator.__init__`) uses the default non-strict `Undefined`: a
  plain `{{name}}` interpolation of an undefined name prints as the empty
  string and raises no `UndefinedError`; a present `None` value prints as
  `"None"`.  Interpolation-only templates are modelled as a list of
  literal/variable parts.
-/

/-! ## Python string primitives -/

/-- Python `str.isspace`-style whitespace test used by `str.split()` and
`str.strip()` (the whitespace characters occurring in this code base are all
ASCII). -/
def pySpace (c : Char) : Bool := c.isWhitespace

/-- Accumulator-passing worker for Python `str.split()` (split on whitespace
runs, dropping empty pieces).  `acc` holds the current word reversed. -/
def splitWsAux : List Char → List Char → List (List Char)
  | [], acc => if acc = [] then [] else [acc.reverse]
  | c :: cs, acc =>
    if pySpace c then
      if acc = [] then splitWsAux cs [] else acc.reverse :: splitWsAux cs []
    else
      splitWsAux cs (c :: acc)

/-- Python `str.split()` with no argument: maximal runs of non-whitespace. -/
def splitWs (l : List Char) : List (List Char) := splitWsAux l []

/-- Python `str.strip()`: drop whitespace from both ends. -/
def pyStrip (l : List Char) : List Char :=
  ((l.dropWhile pySpace).reverse.dropWhile pySpace).reverse

/-- Python `str.lower()` restricted to the ASCII range (the greeting markers
compared against are pure ASCII, and on every character where this differs
from full Unicode lowercasing both sides fail the ASCII comparison anyway). -/
def lowerAscii (l : List Char) : List Char := l.map Char.toLower

/-- Worker for Python `str.split(sep)` with a one-character separator (keeps
empty pieces). -/
def splitChAux (sep : Char) : List Char → List Char → List (List Char)
  | [], acc => [acc.reverse]
  | c :: cs, acc =>
    if c = sep then acc.reverse :: splitChAux sep cs []
    else splitChAux sep cs (c :: acc)

/-- Python `str.split(sep)` for a one-character separator. -/
def splitCh (sep : Char) (l : List Char) : List (List Char) := splitChAux sep l []

/-- Python `str.split('\n')`. -/
def splitNl (l : List Char) : List (List Char) := splitCh '\n' l

/-- Python `sep.join(pieces)` on character lists. -/
def joinSep (sep : List Char) : List (List Char) → List Char
  | [] => []
  | [w] => w
  | w :: ws => w ++ sep ++ joinSep sep ws

/-- `listStartsWith p l` is Python `l.startswith(p)`. -/
def listStartsWith : List Char → List Char → Bool
  | [], _ => true
  | _ :: _, [] => false
  | p :: ps, c :: cs => p = c && listStartsWith ps cs

/-! ## `services/textgen.py` — `TextGenerator` -/

/-- A template-context dict (`String` keys; values are Python strings or
`None`).  `none` = key absent, `some none` = value `None`,
`some (some s)` = value `s`. -/
def Ctx : Type := String → Option (Option String)

/-- `context[k] = v` (v a string or `None`). -/
def ctxSet (m : Ctx) (k : String) (v : Option String) : Ctx :=
  fun k' => if k' = k then some v else m k'

/-- Python `context.get(k)`: `None` both for an absent key and a stored
`None`. -/
def pyGet (m : Ctx) (k : String) : Option String :=
  match m k with
  | some (some s) => some s
  | _ => none

/-- The dict with no keys. -/
def emptyCtx : Ctx := fun _ => none

/-- The keys of `TextGenerator.PLACEHOLDERS`, in source order. -/
def placeholderKeys : List String :=
  ["company", "company_address", "job_title", "subject", "date",
   "contact_person", "your_name", "your_address", "your_email", "your_phone"]

/-- `TextGenerator.generate_subject(job_title)`: `"Bewerbung als {job_title}"`
when `job_title` is truthy and has non-whitespace content, else
`"Bewerbung"`. -/
def generate_subject (jobTitle : Option String) : String :=
  match jobTitle with
  | some s =>
    if s ≠ "" ∧ pyStrip s.data ≠ [] then "Bewerbung als " ++ s else "Bewerbung"
  | none => "Bewerbung"

/-- Python truthiness test `not context[k]` combined with `k not in context`:
true when the key is absent, stored as `None`, or stored as `""`. -/
def ctxMissing (m : Ctx) (k : String) : Bool :=
  match m k with
  | none => true
  | some none => true
  | some (some s) => s = ""

/-- One step of the defaulting loop
`for key in self.PLACEHOLDERS.keys(): if key not in context or context[key] is None: context[key] = ''`. -/
def defaultStep (m : Ctx) (k : String) : Ctx :=
  match m k with
  | none => ctxSet m k (some "")
  | some none => ctxSet m k (some "")
  | some (some _) => m

/-- The whole defaulting loop over `PLACEHOLDERS.keys()`. -/
def applyDefaults (m : Ctx) : List String → Ctx
  | [] => m
  | k :: ks => applyDefaults (defaultStep m k) ks

/-- Interpolation-only template part: literal text or a `{{name}}` variable
reference. -/
inductive TPart where
  | lit (s : String)
  | var (name : String)
deriving DecidableEq

/-- How Jinja2 prints a context entry under the default (non-strict)
`Undefined`: an undefined name prints as `""`, a present `None` prints as
`"None"`. -/
def renderVar : Option (Option String) → String
  | some (some s) => s
  | some none => "None"
  | none => ""

/-- Jinja2 rendering of one template part. -/
def renderPart (m : Ctx) : TPart → String
  | .lit s => s
  | .var n => renderVar (m n)

/-- Jinja2 `template.render(**context)` for an interpolation-only template. -/
def renderTemplate (parts : List TPart) (m : Ctx) : String :=
  String.mk ((parts.map (fun p => (renderPart m p).data)).flatten)

/-- The first mutation of `TextGenerator.render`:
`if 'subject' not in context or not context['subject']: context['subject'] = self.generate_subject(context.get('job_title'))`. -/
def subjectStepCtx (m : Ctx) : Ctx :=
  if ctxMissing m "subject"
  then ctxSet m "subject" (some (generate_subject (pyGet m "job_title")))
  else m

/-- The second mutation of `TextGenerator.render`:
`if 'date' not in context or not context['date']: context['date'] = date.today().strftime('%d.%m.%Y')`;
`today` models the formatted current date. -/
def dateStepCtx (m : Ctx) (today : String) : Ctx :=
  if ctxMissing m "date" then ctxSet m "date" (some today) else m

/-- The context after the three mutation phases of `TextGenerator.render`
(subject default, date default, empty-value defaulting). -/
def renderCtx (m : Ctx) (today : String) : Ctx :=
  applyDefaults (dateStepCtx (subjectStepCtx m) today) placeholderKeys

/-- `TextGenerator.render(template_string, context)`.  The context dict is
mutated in place by the source; the embedding returns the rendered string
together with the mutated context.  For interpolation-only templates the
sandboxed Jinja2 call raises neither `UndefinedError` (default non-strict
`Undefined`) nor any other exception, so the `try` body's return value is the
result. -/
def render (parts : List TPart) (m : Ctx) (today : String) : String × Ctx :=
  (renderTemplate parts (renderCtx m today), renderCtx m today)

/-! ### Lemmas about the defaulting loop -/

lemma defaultStep_keeps_val {m : Ctx} {k k' : String} {s : String}
    (h : m k' = some (some s)) : defaultStep m k k' = some (some s) := by
  unfold defaultStep
  cases hk : m k with
  | none =>
    unfold ctxSet
    by_cases he : k' = k
    · rw [he] at h; rw [h] at hk; exact absurd hk (by simp)
    · simp [he, h]
  | some v =>
    cases v with
    | none =>
      unfold ctxSet
      by_cases he : k' = k
      · rw [he] at h; rw [h] at hk; simp at hk
      · simp [he, h]
    | some t => exact h

lemma defaultStep_good (m : Ctx) (k : String) :
    ∃ s, defaultStep m k k = some (some s) := by
  unfold defaultStep
  cases hk : m k with
  | none => exact ⟨"", by simp [ctxSet]⟩
  | some v =>
    cases v with
    | none => exact ⟨"", by simp [ctxSet]⟩
    | some t => exact ⟨t, hk⟩

lemma applyDefaults_keeps_val {m : Ctx} {k' : String} {s : String} (ks : List String)
    (h : m k' = some (some s)) : applyDefaults m ks k' = some (some s) := by
  induction ks generalizing m with
  | nil => exact h
  | cons k ks ih => exact ih (defaultStep_keeps_val h)

lemma applyDefaults_good (m : Ctx) (ks : List String) (k : String) (hk : k ∈ ks) :
    ∃ s, applyDefaults m ks k = some (some s) := by
  induction ks generalizing m with
  | nil => cases hk
  | cons a ks ih =>
    rcases List.mem_cons.mp hk with h | h
    · subst h
      obtain ⟨s, hs⟩ := defaultStep_good m k
      exact ⟨s, applyDefaults_keeps_val ks hs⟩
    · exact ih (defaultStep m a) h

/-! ### Claims C1, C6, C10 -/

/-- C10: `TextGenerator.render` mutates the caller-supplied context dict in
place: afterwards every one of the ten recognized placeholder keys (including
the possibly defaulted `subject` and `date`) is present and bound to a
non-`None` string, and the mutation is observable (the empty dict does not
come back unchanged). -/
theorem C10_render_mutates_context (parts : List TPart) (m : Ctx) (today : String) :
    (∀ k ∈ placeholderKeys, ∃ s, (render parts m today).2 k = some (some s)) ∧
      (render parts emptyCtx today).2 ≠ emptyCtx := by
  have good : ∀ (m' : Ctx) (k : String), k ∈ placeholderKeys →
      ∃ s, (render parts m' today).2 k = some (some s) := by
    intro m' k hk
    show ∃ s, renderCtx m' today k = some (some s)
    unfold renderCtx
    exact applyDefaults_good _ placeholderKeys k hk
  refine ⟨good m, ?_⟩
  intro h
  obtain ⟨s, hs⟩ := good emptyCtx "subject" (by decide)
  rw [h] at hs
  exact absurd hs (by simp [emptyCtx])

/-- Witness for C10 at a concrete input: after rendering the empty template
over the empty dict, the key `"company"` is present and bound to a string. -/
theorem C10_render_mutates_context_witness :
    ∃ s, (render [] emptyCtx "01.01.2024").2 "company" = some (some s) :=
  (C10_render_mutates_context [] emptyCtx "01.01.2024").1 "company" (by decide)

/-- `hasInfix pat l` holds when `pat` occurs contiguously inside `l`. -/
def hasInfix (pat : List Char) : List Char → Bool
  | [] => listStartsWith pat []
  | c :: cs => listStartsWith pat (c :: cs) || hasInfix pat cs

lemma renderCtx_subject_of_missing {m : Ctx} (today : String)
    (hsub : ctxMissing m "subject" = true) {v : String}
    (hv : generate_subject (pyGet m "job_title") = v) :
    renderCtx m today "subject" = some (some v) := by
  have h1 : subjectStepCtx m "subject" = some (some v) := by
    unfold subjectStepCtx
    rw [hsub]
    simp [ctxSet, hv]
  have h2 : dateStepCtx (subjectStepCtx m) today "subject" = some (some v) := by
    unfold dateStepCtx
    by_cases hd : ctxMissing (subjectStepCtx m) "date" = true
    · rw [hd]
      simpa [ctxSet] using h1
    · simp only [Bool.not_eq_true] at hd
      rw [hd]
      simpa using h1
  exact applyDefaults_keeps_val _ h2

lemma render_subject_out {m : Ctx} {today : String} {v : String}
    (h : renderCtx m today "subject" = some (some v)) :
    (render [TPart.var "subject"] m today).1 = v := by
  show renderTemplate _ _ = v
  unfold renderTemplate
  simp [renderPart, h, renderVar]

/-- C6: when `subject` is absent, `None`, or empty in the context,
`TextGenerator.render` substitutes `"Bewerbung als {job_title}"` for a present
non-blank `job_title`, and `"Bewerbung"` when `job_title` is absent: both the
mutated context entry and the rendered output of a `{{subject}}` reference
carry that derived subject. -/
theorem C6_subject_defaulting (m : Ctx) (today : String)
    (hsub : ctxMissing m "subject" = true) :
    (∀ jt : String, pyGet m "job_title" = some jt → pyStrip jt.data ≠ [] →
      (render [TPart.var "subject"] m today).2 "subject"
          = some (some ("Bewerbung als " ++ jt)) ∧
        (render [TPart.var "subject"] m today).1 = "Bewerbung als " ++ jt) ∧
    (pyGet m "job_title" = none →
      (render [TPart.var "subject"] m today).2 "subject" = some (some "Bewerbung") ∧
        (render [TPart.var "subject"] m today).1 = "Bewerbung") := by
  constructor
  · intro jt hjt hstrip
    have hne : jt ≠ "" := by
      intro h
      subst h
      exact hstrip rfl
    have hv : generate_subject (pyGet m "job_title") = "Bewerbung als " ++ jt := by
      rw [hjt]
      show (if jt ≠ "" ∧ pyStrip jt.data ≠ [] then "Bewerbung als " ++ jt else "Bewerbung")
          = "Bewerbung als " ++ jt
      rw [if_pos ⟨hne, hstrip⟩]
    have hkey := renderCtx_subject_of_missing today hsub hv
    exact ⟨hkey, render_subject_out hkey⟩
  · intro hjt
    have hv : generate_subject (pyGet m "job_title") = "Bewerbung" := by
      rw [hjt]
      rfl
    have hkey := renderCtx_subject_of_missing today hsub hv
    exact ⟨hkey, render_subject_out hkey⟩

/-- Witness for C6: with `job_title = "Backend Engineer"` and no subject in
the context, the rendered subject substitution is exactly
`"Bewerbung als Backend Engineer"`. -/
theorem C6_subject_defaulting_witness :
    (render [TPart.var "subject"]
        (ctxSet emptyCtx "job_title" (some "Backend Engineer")) "01.01.2024").1
      = "Bewerbung als Backend Engineer" :=
  ((C6_subject_defaulting (ctxSet emptyCtx "job_title" (some "Backend Engineer"))
      "01.01.2024" (by decide)).1 "Backend Engineer" (by decide) (by decide)).2

/-- C1 (code evaluation at the failing input): rendering the template
`"{{unknown_field}}"` over the empty context returns the empty string — the
undefined placeholder is substituted silently by Jinja2's default non-strict
`Undefined`, and no `"Fehler"` error text appears in the output, because the
`except UndefinedError` branch of `TextGenerator.render` is unreachable for a
plain interpolation of an unknown name. -/
theorem C1_unknown_placeholder_renders_empty :
    (render [TPart.var "unknown_field"] emptyCtx "01.01.2024").1 = "" ∧
      hasInfix "Fehler".data
        ((render [TPart.var "unknown_field"] emptyCtx "01.01.2024").1).data = false := by
  constructor
  · rfl
  · rfl

/-! ## `services/pdfgen.py` — `generate_filename` -/

/-- A `datetime` date (only the date part is ever used). -/
structure PyDate where
  y : ℕ
  m : ℕ
  d : ℕ
deriving DecidableEq

/-- Gregorian leap-year rule used by `datetime`. -/
def isLeap (y : ℕ) : Bool := y % 4 = 0 && (y % 100 ≠ 0 || y % 400 = 0)

/-- Days in a month as validated by `datetime.strptime`. -/
def daysInMonth (y m : ℕ) : ℕ :=
  if m = 2 then (if isLeap y then 29 else 28)
  else if m = 4 ∨ m = 6 ∨ m = 9 ∨ m = 11 then 30 else 31

/-- Digit-string to number; `none` when empty or a non-digit appears. -/
def parseNatGo : List Char → ℕ → Option ℕ
  | [], n => some n
  | c :: cs, n =>
    if c.isDigit then parseNatGo cs (n * 10 + (c.toNat - 48)) else none

/-- Parse a non-empty all-digit string. -/
def parseNatL (l : List Char) : Option ℕ :=
  if l = [] then none else parseNatGo l 0

/-- The `datetime` range/validity check performed by `strptime`. -/
def mkValidDate (y m d : ℕ) : Option PyDate :=
  if 1 ≤ m ∧ m ≤ 12 ∧ 1 ≤ d ∧ d ≤ daysInMonth y m ∧ 1 ≤ y ∧ y ≤ 9999
  then some ⟨y, m, d⟩ else none

/-- `datetime.strptime(s, '%Y-%m-%d')` on the inputs this program feeds it:
three dash-separated digit groups with a calendar-valid result, else a
`ValueError` (`none`). -/
def strptimeIso (l : List Char) : Option PyDate :=
  match splitCh '-' l with
  | [ys, ms, ds] =>
    match parseNatL ys, parseNatL ms, parseNatL ds with
    | some y, some mo, some da => mkValidDate y mo da
    | _, _, _ => none
  | _ => none

/-- `datetime.strptime(s, '%d.%m.%Y')`, analogously. -/
def strptimeGerman (l : List Char) : Option PyDate :=
  match splitCh '.' l with
  | [ds, ms, ys] =>
    match parseNatL ds, parseNatL ms, parseNatL ys with
    | some da, some mo, some y => mkValidDate y mo da
    | _, _, _ => none
  | _ => none

/-- Zero-pad a number to `w` digits (as `strftime` does). -/
def padDigits (w n : ℕ) : List Char :=
  List.replicate (w - (Nat.toDigits 10 n).length) '0' ++ Nat.toDigits 10 n

/-- `date.strftime('%Y-%m-%d')`. -/
def strftimeIsoL (d : PyDate) : List Char :=
  padDigits 4 d.y ++ ['-'] ++ padDigits 2 d.m ++ ['-'] ++ padDigits 2 d.d

/-- The date-argument handling at the top of `generate_filename`: `None` means
`datetime.now()` (the `now` parameter); a string containing `'-'` is parsed as
ISO, otherwise as `DD.MM.YYYY`; a `ValueError` falls back to `now`. -/
def resolveDate (dateInput : Option String) (now : PyDate) : PyDate :=
  match dateInput with
  | none => now
  | some ds =>
    if ds.data.any (· = '-') then (strptimeIso ds.data).getD now
    else (strptimeGerman ds.data).getD now

/-- The per-character effect of the `replace` chain in `clean_name`:
`'/'` and `'\\'` become `'-'`; `: * ? " < > |` are removed; `'&'` becomes
`"und"`; everything else is kept.  (The chain's replacement outputs are never
themselves replaced by a later step, so the sequential `str.replace` calls
equal this single pass.) -/
def sanitizeChar (c : Char) : List Char :=
  if c = '/' then ['-']
  else if c = '\\' then ['-']
  else if c = ':' ∨ c = '*' ∨ c = '?' ∨ c = '"' ∨ c = '<' ∨ c = '>' ∨ c = '|' then []
  else if c = '&' then "und".data
  else [c]

/-- `clean_name` on character lists: the replace chain, then
`'_'.join(name.split())`. -/
def cleanNameL (l : List Char) : List Char :=
  joinSep ['_'] (splitWs ((l.map sanitizeChar).flatten))

/-- The inner helper `clean_name` of `generate_filename` (an empty input
yields `""`, which the caller replaces by its fallback word). -/
def clean_name (s : String) : String := String.mk (cleanNameL s.data)

/-- `generate_filename(company, job_title, date)` with `now` modelling
`datetime.now()`. -/
def generate_filename (company jobTitle : String) (dateInput : Option String)
    (now : PyDate) : String :=
  "Bewerbung_" ++ String.mk (strftimeIsoL (resolveDate dateInput now)) ++ "_" ++
    (if clean_name company = "" then "Unternehmen" else clean_name company) ++ "_" ++
    (if clean_name jobTitle = "" then "Bewerbung" else clean_name jobTitle) ++ ".pdf"

/-! ### Character-level lemmas about `splitWs` and `joinSep` -/

lemma splitWsAux_good : ∀ (l acc : List Char), (∀ c ∈ acc, pySpace c = false) →
    ∀ w ∈ splitWsAux l acc, w ≠ [] ∧ ∀ c ∈ w, pySpace c = false := by
  intro l
  induction l with
  | nil =>
    intro acc hacc w hw
    unfold splitWsAux at hw
    by_cases h : acc = []
    · simp [h] at hw
    · simp only [h, if_false] at hw
      rcases List.mem_singleton.mp hw with rfl
      refine ⟨by simpa using h, ?_⟩
      intro c hc
      exact hacc c (List.mem_reverse.mp hc)
  | cons a as ih =>
    intro acc hacc w hw
    unfold splitWsAux at hw
    by_cases hsp : pySpace a
    · rw [if_pos hsp] at hw
      by_cases h : acc = []
      · rw [if_pos h] at hw
        exact ih [] (by simp) w hw
      · rw [if_neg h] at hw
        rcases List.mem_cons.mp hw with rfl | hw'
        · refine ⟨by simpa using h, ?_⟩
          intro c hc
          exact hacc c (List.mem_reverse.mp hc)
        · exact ih [] (by simp) w hw'
    · rw [if_neg hsp] at hw
      refine ih (a :: acc) ?_ w hw
      intro c hc
      rcases List.mem_cons.mp hc with rfl | hc'
      · simpa using hsp
      · exact hacc c hc'

lemma splitWs_good (l : List Char) :
    ∀ w ∈ splitWs l, w ≠ [] ∧ ∀ c ∈ w, pySpace c = false :=
  splitWsAux_good l [] (by simp)

lemma splitWsAux_subset : ∀ (l acc : List Char),
    ∀ w ∈ splitWsAux l acc, ∀ c ∈ w, c ∈ l ∨ c ∈ acc := by
  intro l
  induction l with
  | nil =>
    intro acc w hw c hc
    unfold splitWsAux at hw
    by_cases h : acc = []
    · simp [h] at hw
    · simp only [h, if_false] at hw
      rcases List.mem_singleton.mp hw with rfl
      exact Or.inr (List.mem_reverse.mp hc)
  | cons a as ih =>
    intro acc w hw c hc
    unfold splitWsAux at hw
    by_cases hsp : pySpace a
    · rw [if_pos hsp] at hw
      by_cases h : acc = []
      · rw [if_pos h] at hw
        rcases ih [] w hw c hc with h' | h'
        · exact Or.inl (List.mem_cons_of_mem a h')
        · simp at h'
      · rw [if_neg h] at hw
        rcases List.mem_cons.mp hw with rfl | hw'
        · exact Or.inr (List.mem_reverse.mp hc)
        · rcases ih [] w hw' c hc with h' | h'
          · exact Or.inl (List.mem_cons_of_mem a h')
          · simp at h'
    · rw [if_neg hsp] at hw
      rcases ih (a :: acc) w hw c hc with h' | h'
      · exact Or.inl (List.mem_cons_of_mem a h')
      · rcases List.mem_cons.mp h' with rfl | h''
        · exact Or.inl (List.mem_cons_self _ _)
        · exact Or.inr h''

lemma splitWs_subset (l : List Char) : ∀ w ∈ splitWs l, ∀ c ∈ w, c ∈ l := by
  intro w hw c hc
  rcases splitWsAux_subset l [] w hw c hc with h | h
  · exact h
  · simp at h

lemma mem_joinSep (sep : List Char) :
    ∀ (ws : List (List Char)) (c : Char), c ∈ joinSep sep ws →
      (∃ w ∈ ws, c ∈ w) ∨ c ∈ sep := by
  intro ws
  induction ws with
  | nil =>
    intro c hc
    simp [joinSep] at hc
  | cons w ws ih =>
    intro c hc
    cases ws with
    | nil =>
      exact Or.inl ⟨w, by simp, by simpa [joinSep] using hc⟩
    | cons w' ws' =>
      unfold joinSep at hc
      rcases List.mem_append.mp hc with h | h
      · rcases List.mem_append.mp h with h' | h'
        · exact Or.inl ⟨w, by simp, h'⟩
        · exact Or.inr h'
      · rcases ih c h with ⟨u, hu, hcu⟩ | h'
        · exact Or.inl ⟨u, List.mem_cons_of_mem _ hu, hcu⟩
        · exact Or.inr h'

/-- Boolean membership in a character list. -/
def memB (c : Char) : List Char → Bool
  | [] => false
  | d :: ds => c = d || memB c ds

/-- The path-hostile characters the spec says never survive
`generate_filename`'s sanitization. -/
def hostileChars : List Char := ['/', '\\', ':', '*', '?', '"', '<', '>', '|', '&']

/-- A character acceptable in a sanitized filename component: not
path-hostile and not whitespace. -/
def goodFileChar (c : Char) : Bool := !memB c hostileChars && !pySpace c

lemma sanitize_good (a : Char) : ∀ c ∈ sanitizeChar a, memB c hostileChars = false := by
  intro c hc
  unfold sanitizeChar at hc
  split_ifs at hc with h1 h2 h3 h4
  · rcases List.mem_singleton.mp hc with rfl
    decide
  · rcases List.mem_singleton.mp hc with rfl
    decide
  · simp at hc
  · have : c = 'u' ∨ c = 'n' ∨ c = 'd' := by simpa using hc
    rcases this with rfl | rfl | rfl <;> decide
  · rcases List.mem_singleton.mp hc with rfl
    push_neg at h3
    obtain ⟨g1, g2, g3, g4, g5, g6, g7⟩ := h3
    simp [memB, hostileChars, h1, h2, h4, g1, g2, g3, g4, g5, g6, g7]

lemma sanitize_flatten_good (l : List Char) :
    ∀ c ∈ (l.map sanitizeChar).flatten, memB c hostileChars = false := by
  intro c hc
  rcases List.mem_flatten.mp hc with ⟨piece, hp, hcp⟩
  rcases List.mem_map.mp hp with ⟨a, _, rfl⟩
  exact sanitize_good a c hcp

/-- C5: `generate_filename` sanitizes company and job title (path-hostile
characters stripped or replaced, `'/'` to `'-'`, `'&'` to `"und"`, whitespace
runs collapsed to single underscores), substitutes `"Unternehmen"` /
`"Bewerbung"` for an empty component, always yields
`"Bewerbung_<ISO date>_<company>_<jobTitle>.pdf"`, and in particular maps
`("Müller & Co.", "Senior Dev/Ops", "2024-03-05")` to
`"Bewerbung_2024-03-05_Müller_und_Co._Senior_Dev-Ops.pdf"`. -/
theorem C5_generate_filename_spec :
    (generate_filename "Müller & Co." "Senior Dev/Ops" (some "2024-03-05") ⟨2025, 6, 15⟩
        = "Bewerbung_2024-03-05_Müller_und_Co._Senior_Dev-Ops.pdf") ∧
    (generate_filename "" "" (some "2024-03-05") ⟨2025, 6, 15⟩
        = "Bewerbung_2024-03-05_Unternehmen_Bewerbung.pdf") ∧
    (∀ (company jobTitle : String) (d : Option String) (now : PyDate),
      clean_name company = "" →
        ∃ jc, jc ≠ "" ∧
          generate_filename company jobTitle d now
            = "Bewerbung_" ++ String.mk (strftimeIsoL (resolveDate d now)) ++ "_" ++
                "Unternehmen" ++ "_" ++ jc ++ ".pdf") ∧
    (∀ (company jobTitle : String) (d : Option String) (now : PyDate),
      clean_name jobTitle = "" →
        ∃ cc, cc ≠ "" ∧
          generate_filename company jobTitle d now
            = "Bewerbung_" ++ String.mk (strftimeIsoL (resolveDate d now)) ++ "_" ++
                cc ++ "_" ++ "Bewerbung" ++ ".pdf") ∧
    (∀ (company jobTitle : String) (d : Option String) (now : PyDate),
      ∃ cc jc : String, cc ≠ "" ∧ jc ≠ "" ∧
        generate_filename company jobTitle d now
          = "Bewerbung_" ++ String.mk (strftimeIsoL (resolveDate d now)) ++ "_" ++
              cc ++ "_" ++ jc ++ ".pdf") ∧
    (∀ s : String, (cleanNameL s.data).all goodFileChar = true) := by
  refine ⟨by decide, by decide, ?_, ?_, ?_, ?_⟩
  · intro company jobTitle d now h
    refine ⟨if clean_name jobTitle = "" then "Bewerbung" else clean_name jobTitle, ?_, ?_⟩
    · by_cases hj : clean_name jobTitle = ""
      · rw [if_pos hj]
        decide
      · rw [if_neg hj]
        exact hj
    · unfold generate_filename
      rw [if_pos h]
  · intro company jobTitle d now hj
    refine ⟨if clean_name company = "" then "Unternehmen" else clean_name company, ?_, ?_⟩
    · by_cases hc : clean_name company = ""
      · rw [if_pos hc]
        decide
      · rw [if_neg hc]
        exact hc
    · unfold generate_filename
      rw [if_pos hj]
  · intro company jobTitle d now
    by_cases hc : clean_name company = ""
    · by_cases hj : clean_name jobTitle = ""
      · exact ⟨"Unternehmen", "Bewerbung", by decide, by decide,
          by simp [generate_filename, hc, hj]⟩
      · exact ⟨"Unternehmen", clean_name jobTitle, by decide, hj,
          by simp [generate_filename, hc, hj]⟩
    · by_cases hj : clean_name jobTitle = ""
      · exact ⟨clean_name company, "Bewerbung", hc, by decide,
          by simp [generate_filename, hc, hj]⟩
      · exact ⟨clean_name company, clean_name jobTitle, hc, hj,
          by simp [generate_filename, hc, hj]⟩
  · intro s
    rw [List.all_eq_true]
    intro c hc
    unfold cleanNameL at hc
    rcases mem_joinSep _ _ c hc with ⟨w, hw, hcw⟩ | hsep
    · have hgood := splitWs_good _ w hw
      have hsub := splitWs_subset _ w hw c hcw
      have hnh := sanitize_flatten_good s.data c hsub
      simp [goodFileChar, hnh, hgood.2 c hcw]
    · rcases List.mem_singleton.mp hsep with rfl
      decide

/-- Witness for C5's fallback branch at a concrete input: an empty company
yields the `"Unternehmen"` placeholder segment. -/
theorem C5_generate_filename_spec_witness :
    ∃ jc, jc ≠ "" ∧
      generate_filename "" "Senior Dev/Ops" (some "2024-03-05") ⟨2025, 6, 15⟩
        = "Bewerbung_" ++
            String.mk (strftimeIsoL (resolveDate (some "2024-03-05") ⟨2025, 6, 15⟩)) ++
            "_" ++ "Unternehmen" ++ "_" ++ jc ++ ".pdf" :=
  C5_generate_filename_spec.2.2.1 "" "Senior Dev/Ops" (some "2024-03-05") ⟨2025, 6, 15⟩
    (by decide)

/-! ## `services/pdfgen.py` — `DINBriefGenerator._wrap_text` -/

/-- Measured rendered width of a string: the sum of its per-character glyph
widths under the width table `cw` (one fixed font and the fixed 11pt body
size). -/
def lineW (cw : Char → ℚ) (l : List Char) : ℚ := (l.map cw).sum

/-- Width of `' '.join(chunk)` for a chunk of words — the quantity
`c.stringWidth(test_line, font_name, self.FONT_SIZE)` compares against
`max_width`. -/
def chunkW (cw : Char → ℚ) (chunk : List (List Char)) : ℚ :=
  lineW cw (joinSep [' '] chunk)

/-- The greedy word loop of `_wrap_text`: `curr` is `current_line`, the
result is the list of emitted chunks (each chunk joined with spaces gives one
output line).  `test_line = ' '.join(current_line + [word])` fits iff its
measured width is `≤ max_width`; on overflow a non-empty `current_line` is
flushed and the overflowing word starts the next line. -/
def wrapAux (cw : Char → ℚ) (maxW : ℚ) :
    List (List Char) → List (List Char) → List (List (List Char))
  | [], curr => if curr = [] then [] else [curr]
  | w :: ws, curr =>
    if chunkW cw (curr ++ [w]) ≤ maxW then wrapAux cw maxW ws (curr ++ [w])
    else if curr = [] then wrapAux cw maxW ws [w]
    else curr :: wrapAux cw maxW ws [w]

/-- `DINBriefGenerator._wrap_text(text, max_width, c, font_name)`: split into
words, pack greedily, join each chunk with single spaces; an empty result is
replaced by `['']`. -/
def wrapText (cw : Char → ℚ) (maxW : ℚ) (text : List Char) : List (List Char) :=
  if wrapAux cw maxW (splitWs text) [] = [] then [[]]
  else (wrapAux cw maxW (splitWs text) []).map (joinSep [' '])

/-! ### Invariants of the greedy wrap -/

lemma wrapAux_flatten (cw : Char → ℚ) (maxW : ℚ) :
    ∀ (ws curr : List (List Char)), (wrapAux cw maxW ws curr).flatten = curr ++ ws := by
  intro ws
  induction ws with
  | nil =>
    intro curr
    unfold wrapAux
    by_cases h : curr = []
    · simp [h]
    · simp [h]
  | cons w ws ih =>
    intro curr
    unfold wrapAux
    split_ifs with h1 h2
    · rw [ih]
      simp
    · rw [ih, h2]
      rfl
    · show curr ++ (wrapAux cw maxW ws [w]).flatten = _
      rw [ih]
      simp

lemma wrapAux_chunk_ne_nil (cw : Char → ℚ) (maxW : ℚ) :
    ∀ (ws curr : List (List Char)), ∀ chunk ∈ wrapAux cw maxW ws curr, chunk ≠ [] := by
  intro ws
  induction ws with
  | nil =>
    intro curr chunk hc
    unfold wrapAux at hc
    by_cases h : curr = []
    · simp [h] at hc
    · simp only [h, if_false] at hc
      rcases List.mem_singleton.mp hc with rfl
      exact h
  | cons w ws ih =>
    intro curr chunk hc
    unfold wrapAux at hc
    split_ifs at hc with h1 h2
    · exact ih _ chunk hc
    · exact ih _ chunk hc
    · rcases List.mem_cons.mp hc with rfl | hc'
      · exact h2
      · exact ih _ chunk hc'

lemma wrapAux_fits (cw : Char → ℚ) (maxW : ℚ) :
    ∀ (ws curr : List (List Char)), (∀ w ∈ ws, lineW cw w ≤ maxW) →
      (curr = [] ∨ chunkW cw curr ≤ maxW) →
      ∀ chunk ∈ wrapAux cw maxW ws curr, chunkW cw chunk ≤ maxW := by
  intro ws
  induction ws with
  | nil =>
    intro curr _ hcurr chunk hc
    unfold wrapAux at hc
    by_cases h : curr = []
    · simp [h] at hc
    · simp only [h, if_false] at hc
      rcases List.mem_singleton.mp hc with rfl
      rcases hcurr with h' | h'
      · exact absurd h' h
      · exact h'
  | cons w ws ih =>
    intro curr hws hcurr chunk hc
    unfold wrapAux at hc
    have hwhead : lineW cw w ≤ maxW := hws w (by simp)
    have hwtail : ∀ u ∈ ws, lineW cw u ≤ maxW := fun u hu => hws u (by simp [hu])
    have hsingle : chunkW cw [w] ≤ maxW := by
      show lineW cw (joinSep [' '] [w]) ≤ maxW
      simpa [joinSep] using hwhead
    split_ifs at hc with h1 h2
    · exact ih _ hwtail (Or.inr h1) chunk hc
    · exact ih _ hwtail (Or.inr hsingle) chunk hc
    · rcases List.mem_cons.mp hc with rfl | hc'
      · rcases hcurr with h' | h'
        · exact absurd h' h2
        · exact h'
      · exact ih _ hwtail (Or.inr hsingle) chunk hc'

lemma wrapAux_fit_or_single (cw : Char → ℚ) (maxW : ℚ) :
    ∀ (ws curr : List (List Char)),
      (curr = [] ∨ chunkW cw curr ≤ maxW ∨ ∃ w, curr = [w]) →
      ∀ chunk ∈ wrapAux cw maxW ws curr,
        chunkW cw chunk ≤ maxW ∨ ∃ w, chunk = [w] := by
  intro ws
  induction ws with
  | nil =>
    intro curr hcurr chunk hc
    unfold wrapAux at hc
    by_cases h : curr = []
    · simp [h] at hc
    · simp only [h, if_false] at hc
      rcases List.mem_singleton.mp hc with rfl
      rcases hcurr with h' | h' | h'
      · exact absurd h' h
      · exact Or.inl h'
      · exact Or.inr h'
  | cons w ws ih =>
    intro curr hcurr chunk hc
    unfold wrapAux at hc
    split_ifs at hc with h1 h2
    · exact ih _ (Or.inr (Or.inl h1)) chunk hc
    · exact ih _ (Or.inr (Or.inr ⟨w, rfl⟩)) chunk hc
    · rcases List.mem_cons.mp hc with rfl | hc'
      · rcases hcurr with h' | h' | h'
        · exact absurd h' h2
        · exact Or.inl h'
        · exact Or.inr h'
      · exact ih _ (Or.inr (Or.inr ⟨w, rfl⟩)) chunk hc'

lemma lineW_nonneg {cw : Char → ℚ} (hcw : ∀ c, 0 ≤ cw c) (l : List Char) :
    0 ≤ lineW cw l := by
  refine List.sum_nonneg ?_
  intro q hq
  rcases List.mem_map.mp hq with ⟨c, _, rfl⟩
  exact hcw c

lemma lineW_append (cw : Char → ℚ) (a b : List Char) :
    lineW cw (a ++ b) = lineW cw a + lineW cw b := by
  simp [lineW]

lemma mem_chunkW_le {cw : Char → ℚ} (hcw : ∀ c, 0 ≤ cw c) :
    ∀ (chunk : List (List Char)) (w : List Char), w ∈ chunk →
      lineW cw w ≤ chunkW cw chunk := by
  intro chunk
  induction chunk with
  | nil =>
    intro w hw
    cases hw
  | cons u rest ih =>
    intro w hw
    cases rest with
    | nil =>
      rcases List.mem_singleton.mp hw with rfl
      exact le_of_eq rfl
    | cons v rest' =>
      have hsplit : chunkW cw (u :: v :: rest')
          = lineW cw u + cw ' ' + chunkW cw (v :: rest') := by
        show lineW cw (u ++ [' '] ++ joinSep [' '] (v :: rest')) = _
        rw [lineW_append, lineW_append]
        simp [lineW, chunkW]
      rcases List.mem_cons.mp hw with rfl | hw'
      · rw [hsplit]
        have h1 : 0 ≤ cw ' ' := hcw ' '
        have h2 : 0 ≤ chunkW cw (v :: rest') := lineW_nonneg hcw _
        linarith
      · rw [hsplit]
        have h1 : 0 ≤ cw ' ' := hcw ' '
        have h2 : 0 ≤ lineW cw u := lineW_nonneg hcw u
        have := ih w hw'
        linarith

lemma splitWsAux_nil (acc : List Char) :
    splitWsAux [] acc = if acc = [] then [] else [acc.reverse] := rfl

lemma splitWsAux_cons (c : Char) (cs acc : List Char) :
    splitWsAux (c :: cs) acc =
      if pySpace c then
        (if acc = [] then splitWsAux cs [] else acc.reverse :: splitWsAux cs [])
      else splitWsAux cs (c :: acc) := rfl

lemma splitWsAux_shift :
    ∀ (w : List Char), (∀ c ∈ w, pySpace c = false) →
      ∀ (l acc : List Char), splitWsAux (w ++ l) acc = splitWsAux l (w.reverse ++ acc) := by
  intro w
  induction w with
  | nil =>
    intro _ l acc
    simp
  | cons c w' ih =>
    intro hgood l acc
    have hc : pySpace c = false := hgood c (by simp)
    have hgood' : ∀ d ∈ w', pySpace d = false := fun d hd => hgood d (by simp [hd])
    show splitWsAux (c :: (w' ++ l)) acc = _
    rw [splitWsAux_cons, hc]
    simp only [Bool.false_eq_true, if_false]
    rw [ih hgood' l (c :: acc)]
    simp [List.append_assoc]

lemma splitWs_word_single (w : List Char) (hw : w ≠ [])
    (hgood : ∀ c ∈ w, pySpace c = false) : splitWs w = [w] := by
  have h := splitWsAux_shift w hgood [] []
  rw [List.append_nil, List.append_nil] at h
  unfold splitWs
  rw [h, splitWsAux_nil]
  rw [if_neg (by simpa using hw)]
  simp

lemma splitWs_word_space (w l : List Char) (hw : w ≠ [])
    (hgood : ∀ c ∈ w, pySpace c = false) :
    splitWs (w ++ ' ' :: l) = w :: splitWs l := by
  unfold splitWs
  rw [splitWsAux_shift w hgood (' ' :: l) []]
  rw [List.append_nil]
  rw [splitWsAux_cons]
  rw [if_pos (show pySpace ' ' = true from rfl)]
  rw [if_neg (by simpa using hw)]
  simp

lemma splitWs_joinSep :
    ∀ (ws : List (List Char)),
      (∀ w ∈ ws, w ≠ [] ∧ ∀ c ∈ w, pySpace c = false) →
      splitWs (joinSep [' '] ws) = ws := by
  intro ws
  induction ws with
  | nil =>
    intro _
    rfl
  | cons w ws ih =>
    intro hgood
    have hw := hgood w (by simp)
    have hws : ∀ u ∈ ws, u ≠ [] ∧ ∀ c ∈ u, pySpace c = false :=
      fun u hu => hgood u (by simp [hu])
    cases ws with
    | nil =>
      show splitWs w = [w]
      exact splitWs_word_single w hw.1 hw.2
    | cons w' ws' =>
      show splitWs (w ++ [' '] ++ joinSep [' '] (w' :: ws')) = _
      rw [List.append_assoc]
      show splitWs (w ++ ' ' :: joinSep [' '] (w' :: ws')) = _
      rw [splitWs_word_space w _ hw.1 hw.2, ih hws]

lemma joinSep_cons (sep w : List Char) (ws : List (List Char)) (h : ws ≠ []) :
    joinSep sep (w :: ws) = w ++ sep ++ joinSep sep ws := by
  cases ws with
  | nil => exact absurd rfl h
  | cons u t => rfl

lemma joinSep_append (sep : List Char) :
    ∀ (a b : List (List Char)), a ≠ [] → b ≠ [] →
      joinSep sep (a ++ b) = joinSep sep a ++ sep ++ joinSep sep b := by
  intro a
  induction a with
  | nil =>
    intro b ha _
    exact absurd rfl ha
  | cons x a' ih =>
    intro b _ hb
    cases a' with
    | nil =>
      show joinSep sep (x :: b) = _
      exact joinSep_cons sep x b hb
    | cons x' a'' =>
      have h1 : joinSep sep ((x :: x' :: a'') ++ b)
          = x ++ sep ++ joinSep sep ((x' :: a'') ++ b) := by
        rw [List.cons_append]
        exact joinSep_cons sep x _ (by simp)
      have h2 := ih b (by simp) hb
      have h3 : joinSep sep (x :: x' :: a'')
          = x ++ sep ++ joinSep sep (x' :: a'') := joinSep_cons sep x _ (by simp)
      rw [h1, h2, h3]
      simp [List.append_assoc]

lemma flatten_ne_nil :
    ∀ (chunks : List (List (List Char))), chunks ≠ [] →
      (∀ c ∈ chunks, c ≠ []) → chunks.flatten ≠ [] := by
  intro chunks
  induction chunks with
  | nil =>
    intro h _
    exact absurd rfl h
  | cons c rest _
    =>
    intro _ hne
    have hc : c ≠ [] := hne c (by simp)
    cases c with
    | nil => exact absurd rfl hc
    | cons w c' => simp

lemma joinSep_flatten (sep : List Char) :
    ∀ (chunks : List (List (List Char))), (∀ c ∈ chunks, c ≠ []) →
      joinSep sep (chunks.map (joinSep sep)) = joinSep sep chunks.flatten := by
  intro chunks
  induction chunks with
  | nil =>
    intro _
    rfl
  | cons c rest ih =>
    intro hne
    have hc : c ≠ [] := hne c (by simp)
    have hrest : ∀ u ∈ rest, u ≠ [] := fun u hu => hne u (by simp [hu])
    cases rest with
    | nil =>
      show joinSep sep [joinSep sep c] = joinSep sep ([c].flatten)
      simp [joinSep]
    | cons c' rest' =>
      have hflat : (c' :: rest').flatten ≠ [] :=
        flatten_ne_nil _ (by simp) hrest
      have h1 : joinSep sep ((c :: c' :: rest').map (joinSep sep))
          = joinSep sep c ++ sep ++ joinSep sep ((c' :: rest').map (joinSep sep)) := by
        exact joinSep_cons sep _ _ (by simp)
      have h2 : joinSep sep ((c :: c' :: rest').flatten)
          = joinSep sep c ++ sep ++ joinSep sep ((c' :: rest').flatten) := by
        rw [List.flatten_cons]
        exact joinSep_append sep c _ hc hflat
      rw [h1, h2, ih hrest]

/-- C7: for every width table and positive usable width, `_wrap_text` packs
words greedily — every returned line either fits within the usable width or is
a single word that is by itself wider than the usable width (placed alone,
never broken mid-word) — and rejoining the returned lines with single spaces
reproduces the original word sequence of `text.split()` exactly.  The
function is total (never raises). -/
theorem C7_wrap_text_sound (cw : Char → ℚ) (hcw : ∀ c, 0 ≤ cw c) (maxW : ℚ)
    (hmax : 0 < maxW) (text : List Char) :
    splitWs (joinSep [' '] (wrapText cw maxW text)) = splitWs text ∧
    ∀ line ∈ wrapText cw maxW text,
      lineW cw line ≤ maxW ∨ ∃ w ∈ splitWs text, line = w ∧ maxW < lineW cw w := by
  by_cases hch : wrapAux cw maxW (splitWs text) [] = []
  · have hflat := wrapAux_flatten cw maxW (splitWs text) []
    rw [hch] at hflat
    have hempty : splitWs text = [] := by simpa using hflat.symm
    constructor
    · unfold wrapText
      rw [if_pos hch]
      rw [hempty]
      rfl
    · intro line hline
      unfold wrapText at hline
      rw [if_pos hch] at hline
      rcases List.mem_singleton.mp hline with rfl
      left
      show lineW cw [] ≤ maxW
      simpa [lineW] using le_of_lt hmax
  · have hflat := wrapAux_flatten cw maxW (splitWs text) []
    rw [List.nil_append] at hflat
    have hne := wrapAux_chunk_ne_nil cw maxW (splitWs text) []
    have hwtxt : wrapText cw maxW text
        = (wrapAux cw maxW (splitWs text) []).map (joinSep [' ']) := by
      unfold wrapText
      rw [if_neg hch]
    constructor
    · rw [hwtxt, joinSep_flatten _ _ hne, hflat]
      exact splitWs_joinSep _ (splitWs_good text)
    · intro line hline
      rw [hwtxt] at hline
      rcases List.mem_map.mp hline with ⟨chunk, hchunk, rfl⟩
      rcases wrapAux_fit_or_single cw maxW (splitWs text) [] (Or.inl rfl) chunk hchunk
        with hle | ⟨w, rfl⟩
      · exact Or.inl hle
      · by_cases hwle : lineW cw w ≤ maxW
        · left
          show lineW cw (joinSep [' '] [w]) ≤ maxW
          simpa [joinSep] using hwle
        · right
          refine ⟨w, ?_, rfl, lt_of_not_le hwle⟩
          rw [← hflat]
          exact List.mem_flatten.mpr ⟨[w], hchunk, by simp⟩

/-- The all-ones width table used for concrete evaluations. -/
def unitW : Char → ℚ := fun _ => 1

/-- Witness for C7 at a concrete input: wrapping `"aa bb cc"` at width 5 and
rejoining reproduces the word sequence. -/
theorem C7_wrap_text_sound_witness :
    splitWs (joinSep [' '] (wrapText unitW 5 ("aa bb cc".data)))
      = splitWs ("aa bb cc".data) :=
  (C7_wrap_text_sound unitW (fun _ => by norm_num [unitW]) 5 (by norm_num)
    ("aa bb cc".data)).1

lemma chunks_total_bound (cw : Char → ℚ) (maxW : ℚ) :
    ∀ chunks : List (List (List Char)), chunks ≠ [] →
      (∀ c ∈ chunks, c ≠ []) → (∀ c ∈ chunks, chunkW cw c ≤ maxW) →
      lineW cw (joinSep [' '] chunks.flatten) + cw ' '
        ≤ (chunks.length : ℚ) * (maxW + cw ' ') := by
  intro chunks
  induction chunks with
  | nil =>
    intro h
    exact absurd rfl h
  | cons c rest ih =>
    intro _ hne hfit
    have hc : c ≠ [] := hne c (by simp)
    have hcfit : chunkW cw c ≤ maxW := hfit c (by simp)
    cases rest with
    | nil =>
      show lineW cw (joinSep [' '] ([c].flatten)) + cw ' ' ≤ _
      have : ([c] : List (List (List Char))).flatten = c := by simp
      rw [this]
      have hcw' : lineW cw (joinSep [' '] c) = chunkW cw c := rfl
      rw [hcw']
      simp only [List.length_singleton, Nat.cast_one, one_mul]
      linarith
    | cons c' rest' =>
      have hrestne : ∀ u ∈ (c' :: rest'), u ≠ [] := fun u hu => hne u (by simp [hu])
      have hrestfit : ∀ u ∈ (c' :: rest'), chunkW cw u ≤ maxW :=
        fun u hu => hfit u (by simp [hu])
      have hflatne : (c' :: rest').flatten ≠ [] := flatten_ne_nil _ (by simp) hrestne
      have hsplit : joinSep [' '] ((c :: c' :: rest').flatten)
          = joinSep [' '] c ++ [' '] ++ joinSep [' '] ((c' :: rest').flatten) := by
        rw [List.flatten_cons]
        exact joinSep_append [' '] c _ hc hflatne
      have ihh := ih (by simp) hrestne hrestfit
      rw [hsplit, lineW_append, lineW_append]
      have hl : lineW cw [' '] = cw ' ' := by simp [lineW]
      have hcw' : lineW cw (joinSep [' '] c) = chunkW cw c := rfl
      rw [hl, hcw']
      have hlen : ((c :: c' :: rest').length : ℚ) = ((c' :: rest').length : ℚ) + 1 := by
        push_cast [List.length_cons]
        ring
      rw [hlen]
      have hexp : (((c' :: rest').length : ℚ) + 1) * (maxW + cw ' ')
          = ((c' :: rest').length : ℚ) * (maxW + cw ' ') + (maxW + cw ' ') := by
        ring
      rw [hexp]
      linarith

lemma length_le_flatten_length :
    ∀ (chunks : List (List (List Char))), (∀ c ∈ chunks, c ≠ []) →
      chunks.length ≤ chunks.flatten.length := by
  intro chunks
  induction chunks with
  | nil =>
    intro _
    simp
  | cons c rest ih =>
    intro hne
    have hc : c ≠ [] := hne c (by simp)
    have hlen : 1 ≤ c.length := List.length_pos.mpr hc
    have := ih (fun u hu => hne u (by simp [hu]))
    simp only [List.length_cons, List.flatten_cons, List.length_append]
    omega

/-- C8 (amended): for a word sequence in which each word is strictly narrower
than the usable width, the greedy wrap emits at least
`ceil(total_rendered_width / (usable_width + space_width))` lines and at most
one line per word; the claimed exact count
`ceil(total_rendered_width / usable_width)` does not hold (see the
counterexample). -/
theorem C8_wrap_line_count_bounds (cw : Char → ℚ) (hcw : ∀ c, 0 ≤ cw c) (maxW : ℚ)
    (hmax : 0 < maxW) (text : List Char)
    (hcanon : text = joinSep [' '] (splitWs text))
    (hne : splitWs text ≠ [])
    (hfit : ∀ w ∈ splitWs text, lineW cw w < maxW) :
    Int.ceil (lineW cw text / (maxW + cw ' ')) ≤ ((wrapText cw maxW text).length : ℤ) ∧
      (wrapText cw maxW text).length ≤ (splitWs text).length := by
  have hflat := wrapAux_flatten cw maxW (splitWs text) []
  rw [List.nil_append] at hflat
  have hchne : wrapAux cw maxW (splitWs text) [] ≠ [] := by
    intro h
    rw [h] at hflat
    exact hne (by simpa using hflat.symm)
  have hcne := wrapAux_chunk_ne_nil cw maxW (splitWs text) []
  have hfits := wrapAux_fits cw maxW (splitWs text) []
    (fun w hw => le_of_lt (hfit w hw)) (Or.inl rfl)
  have hwtxt : wrapText cw maxW text
      = (wrapAux cw maxW (splitWs text) []).map (joinSep [' ']) := by
    unfold wrapText
    rw [if_neg hchne]
  have hlen : (wrapText cw maxW text).length
      = (wrapAux cw maxW (splitWs text) []).length := by
    rw [hwtxt]
    simp
  have hbound := chunks_total_bound cw maxW _ hchne hcne hfits
  rw [hflat, ← hcanon] at hbound
  have hspw : 0 ≤ cw ' ' := hcw ' '
  have hpos : 0 < maxW + cw ' ' := by linarith
  constructor
  · rw [hlen, Int.ceil_le]
    push_cast
    rw [div_le_iff₀ hpos]
    linarith
  · rw [hlen]
    have h1 := length_le_flatten_length _ hcne
    rw [hflat] at h1
    exact h1

/-- Witness for C8's amended bound at a concrete input. -/
theorem C8_wrap_line_count_bounds_witness :
    Int.ceil (lineW unitW ("aa bb cc".data) / (5 + unitW ' '))
      ≤ ((wrapText unitW 5 ("aa bb cc".data)).length : ℤ) := by
  have hs : splitWs ("aa bb cc".data) = [['a', 'a'], ['b', 'b'], ['c', 'c']] := by decide
  refine (C8_wrap_line_count_bounds unitW (fun _ => by norm_num [unitW]) 5 (by norm_num)
    ("aa bb cc".data) (by decide) (by decide) ?_).1
  intro w hw
  rw [hs] at hw
  have : w = ['a', 'a'] ∨ w = ['b', 'b'] ∨ w = ['c', 'c'] := by simpa using hw
  rcases this with rfl | rfl | rfl <;> norm_num [lineW, unitW]

lemma wrapAux_nil_eq (cw : Char → ℚ) (maxW : ℚ) (curr : List (List Char)) :
    wrapAux cw maxW [] curr = if curr = [] then [] else [curr] := rfl

lemma wrapAux_cons_eq (cw : Char → ℚ) (maxW : ℚ) (w : List Char)
    (ws curr : List (List Char)) :
    wrapAux cw maxW (w :: ws) curr =
      if chunkW cw (curr ++ [w]) ≤ maxW then wrapAux cw maxW ws (curr ++ [w])
      else if curr = [] then wrapAux cw maxW ws [w]
      else curr :: wrapAux cw maxW ws [w] := rfl

/-- Counterexample to C8 as stated: for the three-word text
`"aaaaaa aaaaaa aaaaaa"` under the all-ones width table with usable width 10,
every word is narrower than the usable width, yet the wrap emits 3 lines while
`ceil(total_rendered_width / usable_width) = ceil(20 / 10) = 2`. -/
theorem C8_exact_ceil_cex :
    ((splitWs ("aaaaaa aaaaaa aaaaaa".data)).all
        (fun w => decide (lineW unitW w < 10))) = true ∧
      ((wrapText unitW 10 ("aaaaaa aaaaaa aaaaaa".data)).length : ℤ)
        ≠ Int.ceil (lineW unitW ("aaaaaa aaaaaa aaaaaa".data) / 10) := by
  have hs : splitWs ("aaaaaa aaaaaa aaaaaa".data)
      = [("aaaaaa".data), ("aaaaaa".data), ("aaaaaa".data)] := by decide
  have c1 : chunkW unitW ([] ++ [("aaaaaa".data)]) ≤ 10 := by
    norm_num [chunkW, joinSep, lineW, unitW]
  have c2 : ¬ chunkW unitW ([("aaaaaa".data)] ++ [("aaaaaa".data)]) ≤ 10 := by
    norm_num [chunkW, joinSep, lineW, unitW]
  have hwa : wrapAux unitW 10 [("aaaaaa".data), ("aaaaaa".data), ("aaaaaa".data)] []
      = [[("aaaaaa".data)], [("aaaaaa".data)], [("aaaaaa".data)]] := by
    rw [wrapAux_cons_eq, if_pos c1]
    rw [show ([] : List (List Char)) ++ [("aaaaaa".data)] = [("aaaaaa".data)] from rfl]
    rw [wrapAux_cons_eq, if_neg c2, if_neg (by simp)]
    rw [wrapAux_cons_eq, if_neg c2, if_neg (by simp)]
    rw [wrapAux_nil_eq, if_neg (by simp)]
  have hlen : (wrapText unitW 10 ("aaaaaa aaaaaa aaaaaa".data)).length = 3 := by
    unfold wrapText
    rw [hs, hwa]
    rw [if_neg (by simp)]
    simp
  have h20 : lineW unitW ("aaaaaa aaaaaa aaaaaa".data) = 20 := by
    norm_num [lineW, unitW]
  have hl6 : lineW unitW ("aaaaaa".data) < 10 := by norm_num [lineW, unitW]
  constructor
  · rw [hs]
    simp [hl6]
  · rw [hlen, h20]
    norm_num

/-! ## `services/pdfgen.py` — `DINBriefGenerator` layout engine

Coordinates are modelled in integer units of 1/127 pt ("tu"): `1 mm = 360 tu`
and `1 pt = 127 tu`, so every DIN 5008 constant of the class — including the
decimal ones (`50.8 * mm`, `103.4 * mm`) — is an exact integer, and the
engine's coordinate arithmetic (which in the source is exact decimal float
arithmetic nowhere near a rounding boundary of a comparison) is reproduced
exactly.  Width tables supply per-character widths in the same units. -/

/-- One millimetre in layout units. -/
def mmU : ℤ := 360

/-- One PostScript point in layout units. -/
def ptU : ℤ := 127

/-- `LEFT_MARGIN = 25 * mm`. -/
def LEFT_MARGIN : ℤ := 25 * mmU

/-- `RIGHT_MARGIN = 20 * mm`. -/
def RIGHT_MARGIN : ℤ := 20 * mmU

/-- `TOP_MARGIN = 27 * mm`. -/
def TOP_MARGIN : ℤ := 27 * mmU

/-- `SENDER_LINE_Y = 297 * mm - 45 * mm`. -/
def SENDER_LINE_Y : ℤ := 297 * mmU - 45 * mmU

/-- `ADDRESS_FIELD_TOP = 297 * mm - 50.8 * mm` (the division is exact). -/
def ADDRESS_FIELD_TOP : ℤ := 297 * mmU - 508 * mmU / 10

/-- `DATE_Y = 297 * mm - 50.8 * mm`. -/
def DATE_Y : ℤ := 297 * mmU - 508 * mmU / 10

/-- `SUBJECT_Y = 297 * mm - 103.4 * mm` (the division is exact). -/
def SUBJECT_Y : ℤ := 297 * mmU - 1034 * mmU / 10

/-- `TEXT_START_Y = 297 * mm - 115 * mm`. -/
def TEXT_START_Y : ℤ := 297 * mmU - 115 * mmU

/-- `PAGE_WIDTH = 210 * mm`. -/
def PAGE_WIDTH : ℤ := 210 * mmU

/-- `LINE_HEIGHT = 14` (points). -/
def LINE_HEIGHT : ℤ := 14 * ptU

/-- `PARAGRAPH_SPACING = 11` (points). -/
def PARAGRAPH_SPACING : ℤ := 11 * ptU

/-- `BULLET_INDENT = 8 * mm`. -/
def BULLET_INDENT : ℤ := 8 * mmU

/-- `BULLET_SPACING = 8` (points). -/
def BULLET_SPACING : ℤ := 8 * ptU

/-- The per-call margins computed at the top of `generate_pdf`. -/
structure Margins where
  top : ℤ
  bottom : ℤ
  left : ℤ
  right : ℤ
deriving DecidableEq

/-- The optional `data['margins']` dict (values already converted to layout
units; the source multiplies caller-supplied millimetre numbers by `mm`). -/
structure MarginsOpt where
  top : Option ℤ
  bottom : Option ℤ
  left : Option ℤ
  right : Option ℤ
deriving DecidableEq

/-- `margins.get(k, default) * mm` for the four margin keys. -/
def computeMargins (m : MarginsOpt) : Margins :=
  { top := m.top.getD (27 * mmU)
    bottom := m.bottom.getD (25 * mmU)
    left := m.left.getD (25 * mmU)
    right := m.right.getD (20 * mmU) }

/-- The resolved font family (`_register_fonts` falls back to the built-in
Helvetica family when the optional host family is missing; only the four
role names matter to the layout claims). -/
def fontRegular : String := "Helvetica"

/-- Bold variant of the resolved family. -/
def fontBold : String := "Helvetica-Bold"

/-- Italic variant of the resolved family. -/
def fontItalic : String := "Helvetica-Oblique"

/-- Bold-italic variant of the resolved family. -/
def fontBoldItalic : String := "Helvetica-BoldOblique"

/-- A draw command recorded on the canvas.  `text`/`rtext` are
`drawString`/`drawRightString`; `rule` is `c.line`; `pageBreak` records a
`c.showPage()` followed by the `c.setFont(...)` restore, with the cursor value
before the break and the value it is reset to. -/
inductive PEv where
  | text (page : ℕ) (x y : ℤ) (font : String) (content : List Char)
  | rtext (page : ℕ) (x y : ℤ) (font : String) (content : List Char)
  | rule (page : ℕ) (x1 y1 x2 y2 : ℤ)
  | pageBreak (fromPage : ℕ) (yBefore resetY : ℤ) (fontAfter : String)
deriving DecidableEq

/-- The mutable canvas state: current page number, current font (sizes are
fixed constants at each call site and are omitted), and the emitted draw
commands in order. -/
structure Canvas where
  page : ℕ
  font : String
  evs : List PEv
deriving DecidableEq

/-- A fresh per-call canvas (`canvas.Canvas(buffer, pagesize=A4)`). -/
def freshCanvas : Canvas := ⟨1, "Helvetica", []⟩

/-- `c.drawString(x, y, s)`. -/
def drawString (cv : Canvas) (x y : ℤ) (s : List Char) : Canvas :=
  { cv with evs := cv.evs ++ [.text cv.page x y cv.font s] }

/-- `c.drawRightString(x, y, s)`. -/
def drawRightString (cv : Canvas) (x y : ℤ) (s : List Char) : Canvas :=
  { cv with evs := cv.evs ++ [.rtext cv.page x y cv.font s] }

/-- `c.line(x1, y1, x2, y2)`. -/
def drawRule (cv : Canvas) (x1 y1 x2 y2 : ℤ) : Canvas :=
  { cv with evs := cv.evs ++ [.rule cv.page x1 y1 x2 y2] }

/-- `c.setFont(f, size)` (size dropped, see `Canvas`). -/
def setFont (cv : Canvas) (f : String) : Canvas := { cv with font := f }

/-- `c.showPage()` followed by `c.setFont(f, FONT_SIZE)`: starts the next
page and restores the font, recording the break. -/
def pageBreak (cv : Canvas) (yBefore resetY : ℤ) (f : String) : Canvas :=
  { page := cv.page + 1, font := f, evs := cv.evs ++ [.pageBreak cv.page yBefore resetY f] }

/-- Measured width of a string under an integer-unit width table. -/
def lineWZ (cw : Char → ℤ) (l : List Char) : ℤ := (l.map cw).sum

/-- Width of `' '.join(chunk)` (integer-unit instantiation). -/
def chunkWZ (cw : Char → ℤ) (chunk : List (List Char)) : ℤ :=
  lineWZ cw (joinSep [' '] chunk)

/-- `_wrap_text`'s greedy loop at integer-unit widths — the same algorithm as
`wrapAux`, instantiated at `ℤ` so that concrete engine runs are computable by
the kernel. -/
def wrapAuxZ (cw : Char → ℤ) (maxW : ℤ) :
    List (List Char) → List (List Char) → List (List (List Char))
  | [], curr => if curr = [] then [] else [curr]
  | w :: ws, curr =>
    if chunkWZ cw (curr ++ [w]) ≤ maxW then wrapAuxZ cw maxW ws (curr ++ [w])
    else if curr = [] then wrapAuxZ cw maxW ws [w]
    else curr :: wrapAuxZ cw maxW ws [w]

/-- `_wrap_text` at integer-unit widths. -/
def wrapTextZ (cw : Char → ℤ) (maxW : ℤ) (text : List Char) : List (List Char) :=
  if wrapAuxZ cw maxW (splitWs text) [] = [] then [[]]
  else (wrapAuxZ cw maxW (splitWs text) []).map (joinSep [' '])

/-- The greeting test of `_draw_body_text`:
`line.lower().strip()` starts with one of the three recognized prefixes. -/
def isGreeting (l : List Char) : Bool :=
  listStartsWith ("sehr geehrte".data) (pyStrip (lowerAscii l)) ||
    listStartsWith ("liebes".data) (pyStrip (lowerAscii l)) ||
    listStartsWith ("liebe ".data) (pyStrip (lowerAscii l))

/-- `text_start_idx`: index of the first greeting line, `0` when none
matches (the loop variable keeps its initialization). -/
def textStartIdx (lines : List (List Char)) : ℕ :=
  match lines.findIdx? (fun l => isGreeting l) with
  | some i => i
  | none => 0

/-- `relevant_lines = lines[text_start_idx:]`. -/
def relevantLines (lines : List (List Char)) : List (List Char) :=
  lines.drop (textStartIdx lines)

/-- The bullet markers recognized by `_draw_body_text`. -/
def bulletChars : List Char := ['•', '-', '–', '*']

/-- `line.startswith('•') or line.startswith('-') or ...`. -/
def isBulletLine (l : List Char) : Bool :=
  match l with
  | [] => false
  | c :: _ => memB c bulletChars

/-- The strip set of `line.lstrip('•-–* ')`. -/
def bulletStripChars : List Char := ['•', '-', '–', '*', ' ']

/-- Draw a list of wrapped lines at fixed `x`, decrementing the cursor by
`LINE_HEIGHT` per line, with no page-break check (the plain-text path checks
only once per logical input line). -/
def drawLines (x : ℤ) : List (List Char) → Canvas → ℤ → Canvas × ℤ
  | [], cv, y => (cv, y)
  | l :: ls, cv, y => drawLines x ls (drawString cv x y l) (y - LINE_HEIGHT)

/-- `if y < self.current_margins['bottom']: c.showPage(); c.setFont(f, FONT_SIZE); y = 297*mm - self.current_margins['top']`. -/
def breakCheck (mg : Margins) (f : String) (cv : Canvas) (y : ℤ) : Canvas × ℤ :=
  if y < mg.bottom then (pageBreak cv y (297 * mmU - mg.top) f, 297 * mmU - mg.top)
  else (cv, y)

/-- The bullet branch of the plain-text body loop for one stripped line
(`gap` is `not in_bullet_list and not previous_was_bullet`). -/
def procBullet (W : String → Char → ℤ) (mg : Margins) (ctw : ℤ) (line : List Char)
    (cv : Canvas) (y : ℤ) (gap : Bool) : Canvas × ℤ :=
  let y0 := if gap then y - 6 * ptU else y
  let bulletText := pyStrip (line.dropWhile (fun c => memB c bulletStripChars))
  let cv2 := drawString (setFont cv fontRegular) (mg.left + 5 * mmU) y0 ['•']
  let tx := mg.left + BULLET_INDENT
  let tw := ctw - BULLET_INDENT
  if memB '(' bulletText then
    let bold := pyStrip (bulletText.takeWhile (fun c => !(c = '(')))
    let restPart := bulletText.dropWhile (fun c => !(c = '('))
    let cv4 := drawString (setFont cv2 fontBold) tx y0 bold
    let st :=
      if restPart ≠ [] then
        drawLines tx (wrapTextZ (W fontRegular) tw restPart) (setFont cv4 fontRegular)
          (y0 - LINE_HEIGHT)
      else (cv4, y0 - LINE_HEIGHT)
    (st.1, st.2 - BULLET_SPACING)
  else
    let st := drawLines tx (wrapTextZ (W fontRegular) tw bulletText)
      (setFont cv2 fontRegular) y0
    (st.1, st.2 - BULLET_SPACING)

/-- The prose branch of the plain-text body loop for one stripped line. -/
def procProse (W : String → Char → ℤ) (mg : Margins) (ctw : ℤ) (line : List Char)
    (cv : Canvas) (y : ℤ) : Canvas × ℤ :=
  drawLines mg.left (wrapTextZ (W fontRegular) ctw line) (setFont cv fontRegular) y

/-- The line loop of `_draw_body_text` over `relevant_lines`: a blank line
advances the cursor by `PARAGRAPH_SPACING` and — via the `continue` — skips
the page-break check; bullet and prose lines draw and then run the per-line
page-break check. -/
def bodyLoop (W : String → Char → ℤ) (mg : Margins) (ctw : ℤ) :
    List (List Char) → Canvas → ℤ → Bool → Bool → Canvas × ℤ
  | [], cv, y, _, _ => (cv, y)
  | raw :: rest, cv, y, inB, prevB =>
    if pyStrip raw = [] then
      bodyLoop W mg ctw rest cv (y - PARAGRAPH_SPACING) false false
    else if isBulletLine (pyStrip raw) then
      let st := procBullet W mg ctw (pyStrip raw) cv y (!inB && !prevB)
      let st2 := breakCheck mg fontRegular st.1 st.2
      bodyLoop W mg ctw rest st2.1 st2.2 true true
    else
      let st := procProse W mg ctw (pyStrip raw) cv y
      let st2 := breakCheck mg fontRegular st.1 st.2
      bodyLoop W mg ctw rest st2.1 st2.2 false false

/-- `DINBriefGenerator._draw_body_text(c, data)` for a given body string: an
empty body returns immediately (`None`); otherwise the greeting scan discards
leading lines, the font is set, and the line loop runs from `TEXT_START_Y`. -/
def drawBodyText (W : String → Char → ℤ) (mg : Margins) (ctw : ℤ)
    (body : List Char) (cv : Canvas) : Canvas × Option ℤ :=
  if body = [] then (cv, none)
  else
    ((bodyLoop W mg ctw (relevantLines (splitNl body))
        (setFont cv fontRegular) TEXT_START_Y false false).1,
      some (bodyLoop W mg ctw (relevantLines (splitNl body))
        (setFont cv fontRegular) TEXT_START_Y false false).2)

/-- An inline style, as collected by `HTMLToTextConverter`. -/
inductive RStyle where
  | bold
  | italic
  | underline
deriving DecidableEq

/-- One parsed list item (`prefix`/`text`/`styles` of the converter). -/
structure RItem where
  pfx : List Char
  txt : List Char
  styles : List RStyle
deriving DecidableEq

/-- A parsed rich-text block (`type` ∈ {`text`, `paragraph_break`, `list`}),
the output of `_parse_html_content` consumed by `_draw_rich_body_text`. -/
inductive RBlock where
  | text (content : List Char) (styles : List RStyle)
  | parBreak
  | list (items : List RItem)
deriving DecidableEq

/-- `_get_font_for_styles`. -/
def fontFor (styles : List RStyle) : String :=
  if styles.contains RStyle.bold && styles.contains RStyle.italic then fontBoldItalic
  else if styles.contains RStyle.bold then fontBold
  else if styles.contains RStyle.italic then fontItalic
  else fontRegular

/-- The wrapped-line loop of a rich `text` block: optional underline rule,
draw, advance, and the per-wrapped-line page-break check that restores the
block's font. -/
def drawRichLines (W : String → Char → ℤ) (mg : Margins) (font : String)
    (underl : Bool) (x : ℤ) : List (List Char) → Canvas → ℤ → Canvas × ℤ
  | [], cv, y => (cv, y)
  | l :: ls, cv, y =>
    let cv1 :=
      if underl then drawRule cv x (y - 2 * ptU) (x + lineWZ (W font) l) (y - 2 * ptU)
      else cv
    let cv2 := drawString cv1 x y l
    let st := breakCheck mg font cv2 (y - LINE_HEIGHT)
    drawRichLines W mg font underl x ls st.1 st.2

/-- One rich list item: bullet prefix in the regular font, indented wrapped
item text in the item font, the half `BULLET_SPACING` gap, then the per-item
page-break check restoring the item font. -/
def procRichItem (W : String → Char → ℤ) (mg : Margins) (ctw : ℤ)
    (item : RItem) (cv : Canvas) (y : ℤ) : Canvas × ℤ :=
  let font := fontFor item.styles
  let cv1 := drawString (setFont (setFont cv font) fontRegular)
    (mg.left + 5 * mmU) y (pyStrip item.pfx)
  let st := drawLines (mg.left + BULLET_INDENT)
    (wrapTextZ (W font) (ctw - BULLET_INDENT) item.txt) (setFont cv1 font) y
  breakCheck mg font st.1 (st.2 - BULLET_SPACING / 2)

/-- The item loop of a rich `list` block. -/
def richItemsLoop (W : String → Char → ℤ) (mg : Margins) (ctw : ℤ) :
    List RItem → Canvas → ℤ → Canvas × ℤ
  | [], cv, y => (cv, y)
  | it :: its, cv, y =>
    let st := procRichItem W mg ctw it cv y
    richItemsLoop W mg ctw its st.1 st.2

/-- The block loop of `_draw_rich_body_text`. -/
def richLoop (W : String → Char → ℤ) (mg : Margins) (ctw : ℤ) :
    List RBlock → Canvas → ℤ → Canvas × ℤ
  | [], cv, y => (cv, y)
  | RBlock.text content styles :: bs, cv, y =>
    let font := fontFor styles
    let st := drawRichLines W mg font (styles.contains RStyle.underline) mg.left
      (wrapTextZ (W font) ctw content) (setFont cv font) y
    richLoop W mg ctw bs st.1 st.2
  | RBlock.parBreak :: bs, cv, y =>
    richLoop W mg ctw bs cv (y - PARAGRAPH_SPACING)
  | RBlock.list items :: bs, cv, y =>
    let st := richItemsLoop W mg ctw items cv (y - 6 * ptU)
    richLoop W mg ctw bs st.1 (st.2 - 6 * ptU)

/-- `DINBriefGenerator._draw_rich_body_text(c, data)` on the parsed block
sequence (the HTML parse itself produces `blocks`; an absent/empty
`html_content` never reaches this path — `generate_pdf` branches first). -/
def drawRichBodyText (W : String → Char → ℤ) (mg : Margins) (ctw : ℤ)
    (blocks : List RBlock) (cv : Canvas) : Canvas × ℤ :=
  richLoop W mg ctw blocks cv TEXT_START_Y

/-- Truthiness of an optional string field (`None`/absent and `""` are
falsy). -/
def pyTruthy : Option String → Bool
  | some s => !(s = "")
  | none => false

/-- The input dict of `generate_pdf` (fields it reads; `htmlBlocks` is the
parsed form of a present, non-empty `html_content`, `none` when the key is
absent or empty). -/
structure PdfData where
  yourName : Option String
  yourAddress : Option String
  yourEmail : Option String
  yourPhone : Option String
  company : Option String
  companyAddress : Option String
  contactPerson : Option String
  date : Option String
  subject : Option String
  jobTitle : Option String
  bodyText : List Char
  htmlBlocks : Option (List RBlock)
  margins : MarginsOpt
deriving DecidableEq

/-- The multi-line right-aligned loop of `_draw_sender_block`'s address
part. -/
def senderAddrLoop (x : ℤ) : List (List Char) → Canvas → ℤ → Canvas × ℤ
  | [], cv, y => (cv, y)
  | l :: ls, cv, y => senderAddrLoop x ls (drawRightString cv x y (pyStrip l)) (y - 12 * ptU)

/-- `_draw_sender_block`. -/
def drawSenderBlock (mg : Margins) (data : PdfData) (cv : Canvas) : Canvas :=
  let x := PAGE_WIDTH - mg.right
  let cv0 := setFont cv fontRegular
  let st1 :=
    if pyTruthy data.yourName then
      (drawRightString cv0 x (297 * mmU - mg.top) ((data.yourName.getD "").data),
        297 * mmU - mg.top - 12 * ptU)
    else (cv0, 297 * mmU - mg.top)
  let st2 :=
    if pyTruthy data.yourAddress then
      senderAddrLoop x (splitNl ((data.yourAddress.getD "").data)) st1.1 st1.2
    else st1
  let st3 := (st2.1, st2.2 - 6 * ptU)
  let st4 :=
    if pyTruthy data.yourPhone then
      (drawRightString st3.1 x st3.2 ("Tel.: ".data ++ (data.yourPhone.getD "").data),
        st3.2 - 12 * ptU)
    else st3
  if pyTruthy data.yourEmail then
    drawRightString st4.1 x st4.2 ((data.yourEmail.getD "").data)
  else st4.1

/-- The `sender_parts` list of `_draw_sender_line`. -/
def senderParts (data : PdfData) : List (List Char) :=
  (if pyTruthy data.yourName then [(data.yourName.getD "").data] else []) ++
    (if pyTruthy data.yourAddress then
      ((splitNl ((data.yourAddress.getD "").data)).map pyStrip).filter (fun l => !(l = []))
    else [])

/-- `_draw_sender_line`. -/
def drawSenderLine (mg : Margins) (data : PdfData) (cv : Canvas) : Canvas :=
  if senderParts data = [] then cv
  else
    drawRule
      (drawString (setFont cv fontRegular) mg.left SENDER_LINE_Y
        (joinSep (" · ".data) (senderParts data)))
      mg.left (SENDER_LINE_Y - 2 * ptU) (mg.left + 85 * mmU) (SENDER_LINE_Y - 2 * ptU)

/-- The company-address line loop of `_draw_recipient_address` (empty lines
skipped, no cursor advance for them). -/
def recipientAddrLoop (x : ℤ) : List (List Char) → Canvas → ℤ → Canvas × ℤ
  | [], cv, y => (cv, y)
  | l :: ls, cv, y =>
    if pyStrip l = [] then recipientAddrLoop x ls cv y
    else recipientAddrLoop x ls (drawString cv x y (pyStrip l)) (y - LINE_HEIGHT)

/-- `_draw_recipient_address`. -/
def drawRecipientAddress (mg : Margins) (data : PdfData) (cv : Canvas) : Canvas :=
  let x := mg.left
  let cv0 := setFont cv fontRegular
  let st1 :=
    if pyTruthy data.company then
      (drawString cv0 x (ADDRESS_FIELD_TOP - 15 * ptU) ((data.company.getD "").data),
        ADDRESS_FIELD_TOP - 15 * ptU - LINE_HEIGHT)
    else (cv0, ADDRESS_FIELD_TOP - 15 * ptU)
  let st2 :=
    if pyTruthy data.contactPerson then
      (drawString st1.1 x st1.2 ((data.contactPerson.getD "").data), st1.2 - LINE_HEIGHT)
    else st1
  if pyTruthy data.companyAddress then
    (recipientAddrLoop x (splitNl ((data.companyAddress.getD "").data)) st2.1 st2.2).1
  else st2.1

/-- `date.strftime('%d.%m.%Y')`. -/
def strftimeGermanL (d : PyDate) : List Char :=
  padDigits 2 d.d ++ ['.'] ++ padDigits 2 d.m ++ ['.'] ++ padDigits 4 d.y

/-- The date-string normalization of `_draw_date`: an ISO-parsable string
containing `'-'` is reformatted to `DD.MM.YYYY`; anything else passes
through. -/
def formatDateForLetter (ds : List Char) : List Char :=
  if memB '-' ds then
    match strptimeIso ds with
    | some d => strftimeGermanL d
    | none => ds
  else ds

/-- The location inference of `_draw_date` from the last non-empty sender
address line (text after the first space), defaulting to `"Flensburg"`. -/
def dateLocation (addr : Option String) : List Char :=
  match addr with
  | none => "Flensburg".data
  | some a =>
    if a = "" then "Flensburg".data
    else
      match (((splitNl a.data).map pyStrip).filter (fun l => !(l = []))).getLast? with
      | none => "Flensburg".data
      | some last =>
        if memB ' ' last then (last.dropWhile (fun c => !(c = ' '))).drop 1
        else "Flensburg".data

/-- `_draw_date` (`now` models `datetime.now().strftime('%d.%m.%Y')`, the
`data.get('date', ...)` default). -/
def drawDate (mg : Margins) (data : PdfData) (now : List Char) (cv : Canvas) : Canvas :=
  drawRightString (setFont cv fontRegular) (PAGE_WIDTH - mg.right) DATE_Y
    (dateLocation data.yourAddress ++ ", den ".data ++
      formatDateForLetter (match data.date with | some s => s.data | none => now))

/-- The derived subject of `_draw_subject`. -/
def subjectText (data : PdfData) : List Char :=
  if pyTruthy data.subject then (data.subject.getD "").data
  else if pyTruthy data.jobTitle then
    "Bewerbung als ".data ++ (data.jobTitle.getD "").data
  else []

/-- `_draw_subject`. -/
def drawSubject (mg : Margins) (data : PdfData) (cv : Canvas) : Canvas :=
  if subjectText data = [] then cv
  else drawString (setFont cv fontBold) mg.left SUBJECT_Y (subjectText data)

/-- The state `generate_pdf` keeps on the (shared, module-level singleton)
generator object: the `current_margins` and `current_text_width` attributes,
absent (`none`) until the first call assigns them. -/
structure GenState where
  currentMargins : Option Margins
  currentTextWidth : Option ℤ
deriving DecidableEq

/-- The generator state right after `DINBriefGenerator.__init__` (neither
per-call attribute exists yet). -/
def initGenState : GenState := ⟨none, none⟩

/-- `DINBriefGenerator.generate_pdf(data)`: computes and *stores* the per-call
margins and text width on `self`, draws the five header parts, then branches
on `html_content` for the body.  Returns the generator state after the call
together with the finished canvas (the PDF byte buffer). -/
def generatePdf (W : String → Char → ℤ) (st : GenState) (data : PdfData)
    (now : List Char) : GenState × Canvas :=
  (⟨some (computeMargins data.margins),
    some (PAGE_WIDTH - (computeMargins data.margins).left -
      (computeMargins data.margins).right)⟩,
   (fun mg ctw =>
      let cv1 := drawSenderBlock mg data freshCanvas
      let cv2 := drawSenderLine mg data cv1
      let cv3 := drawRecipientAddress mg data cv2
      let cv4 := drawDate mg data now cv3
      let cv5 := drawSubject mg data cv4
      match data.htmlBlocks with
      | some blocks => (drawRichBodyText W mg ctw blocks cv5).1
      | none => (drawBodyText W mg ctw data.bodyText cv5).1)
    (computeMargins data.margins)
    (PAGE_WIDTH - (computeMargins data.margins).left - (computeMargins data.margins).right))

/-- The empty input dict (only defaults apply). -/
def emptyPdfData : PdfData :=
  ⟨none, none, none, none, none, none, none, none, none, none, [], none,
    ⟨none, none, none, none⟩⟩

/-- Width table for concrete runs: every glyph one point wide. -/
def W0 : String → Char → ℤ := fun _ _ => 127

/-- The margins of a call without overrides. -/
def defaultMargins : Margins := computeMargins ⟨none, none, none, none⟩

/-- `current_text_width` of a call without overrides. -/
def defaultCtw : ℤ := PAGE_WIDTH - defaultMargins.left - defaultMargins.right

/-! ### Claim C2 -/

/-- Counterexample to C2 as stated: one `generate_pdf` call on the freshly
initialized singleton changes the generator's observable state — the call
stores `current_margins` and `current_text_width` on `self`. -/
theorem C2_state_mutation_cex :
    (generatePdf (fun _ _ => 0) initGenState emptyPdfData ("01.01.2024".data)).1
      ≠ initGenState := by
  decide

/-- C2 (amended): `generate_pdf` unconditionally overwrites the shared
generator's `current_margins` / `current_text_width` attributes with values
computed from the call's data — the post-call state is independent of the
pre-call state, equals those stored per-call values, and never equals the
freshly initialized state (so mutable layout state *is* stored on the shared
object, contrary to the claim). -/
theorem C2_margins_stored_on_generator (W : String → Char → ℤ)
    (st₁ st₂ : GenState) (data : PdfData) (now : List Char) :
    (generatePdf W st₁ data now).1 = (generatePdf W st₂ data now).1 ∧
      (generatePdf W st₁ data now).1
        = ⟨some (computeMargins data.margins),
            some (PAGE_WIDTH - (computeMargins data.margins).left -
              (computeMargins data.margins).right)⟩ ∧
      (generatePdf W st₁ data now).1 ≠ initGenState := by
  refine ⟨rfl, rfl, ?_⟩
  intro h
  exact Option.noConfusion
    (show some (computeMargins data.margins) = (none : Option Margins) from
      congrArg GenState.currentMargins h)

/-! ### Claim C4 -/

/-- C4 (amended): in the plain-text path, when some line matches a greeting
prefix, every line before the first such line is discarded
(`relevant_lines = lines[i:]`); when *no* line matches, nothing is discarded —
`text_start_idx` keeps its initialization `0` and the whole body renders
(not an empty body, contrary to the claim). -/
theorem C4_greeting_scan (lines : List (List Char)) :
    (lines.findIdx? (fun l => isGreeting l) = none → relevantLines lines = lines) ∧
      (∀ i, lines.findIdx? (fun l => isGreeting l) = some i →
        relevantLines lines = lines.drop i) := by
  constructor
  · intro h
    unfold relevantLines textStartIdx
    rw [h]
    simp
  · intro i h
    unfold relevantLines textStartIdx
    rw [h]

/-- Witness for C4 (amended): a body whose second line is the greeting keeps
exactly the lines from the greeting on. -/
theorem C4_greeting_scan_witness :
    relevantLines
        [("Kopfzeile".data), ("Sehr geehrte Damen und Herren,".data), ("Text".data)]
      = [("Sehr geehrte Damen und Herren,".data), ("Text".data)] :=
  (C4_greeting_scan
    [("Kopfzeile".data), ("Sehr geehrte Damen und Herren,".data), ("Text".data)]).2
    1 (by decide)

/-- Counterexample to C4 as stated: a body with no greeting line renders in
full — `relevant_lines` keeps every line and the engine draws the text —
instead of rendering an empty body. -/
theorem C4_no_greeting_cex :
    relevantLines (splitNl ("hallo welt".data)) = [("hallo welt".data)] ∧
      ((drawBodyText W0 defaultMargins defaultCtw ("hallo welt".data) freshCanvas).1).evs
        = [PEv.text 1 (25 * mmU) TEXT_START_Y fontRegular ("hallo welt".data)] := by
  exact ⟨by decide, by decide⟩

/-! ### Claim C9 -/

/-- Counterexample to C9 as stated: the address-field anchor does *not* lie
strictly above the date-line anchor — the two anchors coincide (both are
`297*mm - 50.8*mm`). -/
theorem C9_address_above_date_cex :
    ¬ ADDRESS_FIELD_TOP > DATE_Y ∧ ADDRESS_FIELD_TOP = DATE_Y := by
  exact ⟨by decide, by decide⟩

/-- C9 (amended): the fixed anchors satisfy
`ADDRESS_FIELD_TOP = DATE_Y > SUBJECT_Y > TEXT_START_Y` (the first pair is an
equality, not a strict ordering), and for every margin override the date line
is still drawn at `DATE_Y` and the subject at `SUBJECT_Y` — the anchors are
class constants unaffected by the per-call margins, which shift only the
horizontal positions. -/
theorem C9_vertical_ordering (mo : MarginsOpt) (data : PdfData) (now : List Char) :
    ADDRESS_FIELD_TOP = DATE_Y ∧ SUBJECT_Y < DATE_Y ∧ TEXT_START_Y < SUBJECT_Y ∧
      (∀ e ∈ (drawDate (computeMargins mo) data now freshCanvas).evs,
        ∃ c, e = PEv.rtext 1 (PAGE_WIDTH - (computeMargins mo).right) DATE_Y
          fontRegular c) ∧
      (∀ e ∈ (drawSubject (computeMargins mo) data freshCanvas).evs,
        ∃ c, e = PEv.text 1 (computeMargins mo).left SUBJECT_Y fontBold c) := by
  refine ⟨by decide, by decide, by decide, ?_, ?_⟩
  · intro e he
    simp only [drawDate, drawRightString, setFont, freshCanvas] at he
    simp only [List.nil_append, List.mem_singleton] at he
    exact ⟨_, he⟩
  · intro e he
    unfold drawSubject at he
    split_ifs at he with hs
    · simp [freshCanvas] at he
    · simp only [drawString, setFont, freshCanvas] at he
      simp only [List.nil_append, List.mem_singleton] at he
      exact ⟨_, he⟩

/-- Witness for C9 at a concrete input: the single event of a default-margin
`_draw_date` call sits at `DATE_Y`. -/
theorem C9_vertical_ordering_witness :
    ∃ c, PEv.rtext 1 (PAGE_WIDTH - (computeMargins ⟨none, none, none, none⟩).right)
        DATE_Y fontRegular ("Flensburg, den 01.01.2024".data)
      = PEv.rtext 1 (PAGE_WIDTH - (computeMargins ⟨none, none, none, none⟩).right)
        DATE_Y fontRegular c :=
  (C9_vertical_ordering ⟨none, none, none, none⟩ emptyPdfData
    ("01.01.2024".data)).2.2.2.1 _ (by decide)

/-! ### Claim C3 -/

/-- The amended page-break property of one draw command: every recorded page
break happened because the cursor had fallen below the bottom margin, and it
reset the cursor to `297*mm - top_margin` — the top-of-page body offset, not
`TEXT_START_Y`. -/
def breakOK (mg : Margins) : PEv → Prop
  | .pageBreak _ yb ry _ => yb < mg.bottom ∧ ry = 297 * mmU - mg.top
  | _ => True

lemma breakCheck_breakOK {mg : Margins} (f : String) {cv : Canvas} (y : ℤ)
    (h : ∀ e ∈ cv.evs, breakOK mg e) :
    ∀ e ∈ (breakCheck mg f cv y).1.evs, breakOK mg e := by
  intro e he
  unfold breakCheck at he
  split_ifs at he with hy
  · simp only [pageBreak, List.mem_append, List.mem_singleton] at he
    rcases he with he | rfl
    · exact h e he
    · exact ⟨hy, rfl⟩
  · exact h e he

lemma drawString_breakOK {mg : Margins} {cv : Canvas} (x y : ℤ) (s : List Char)
    (h : ∀ e ∈ cv.evs, breakOK mg e) :
    ∀ e ∈ (drawString cv x y s).evs, breakOK mg e := by
  intro e he
  simp only [drawString, List.mem_append, List.mem_singleton] at he
  rcases he with he | rfl
  · exact h e he
  · trivial

lemma drawRightString_breakOK {mg : Margins} {cv : Canvas} (x y : ℤ) (s : List Char)
    (h : ∀ e ∈ cv.evs, breakOK mg e) :
    ∀ e ∈ (drawRightString cv x y s).evs, breakOK mg e := by
  intro e he
  simp only [drawRightString, List.mem_append, List.mem_singleton] at he
  rcases he with he | rfl
  · exact h e he
  · trivial

lemma drawRule_breakOK {mg : Margins} {cv : Canvas} (x1 y1 x2 y2 : ℤ)
    (h : ∀ e ∈ cv.evs, breakOK mg e) :
    ∀ e ∈ (drawRule cv x1 y1 x2 y2).evs, breakOK mg e := by
  intro e he
  simp only [drawRule, List.mem_append, List.mem_singleton] at he
  rcases he with he | rfl
  · exact h e he
  · trivial

lemma drawLines_breakOK {mg : Margins} (x : ℤ) :
    ∀ (ls : List (List Char)) (cv : Canvas) (y : ℤ),
      (∀ e ∈ cv.evs, breakOK mg e) →
      ∀ e ∈ (drawLines x ls cv y).1.evs, breakOK mg e := by
  intro ls
  induction ls with
  | nil =>
    intro cv y h
    exact h
  | cons l ls ih =>
    intro cv y h
    exact ih _ _ (drawString_breakOK x y l h)

lemma procBullet_breakOK {mg : Margins} (W : String → Char → ℤ) (ctw : ℤ)
    (line : List Char) {cv : Canvas} (y : ℤ) (gap : Bool)
    (h : ∀ e ∈ cv.evs, breakOK mg e) :
    ∀ e ∈ (procBullet W mg ctw line cv y gap).1.evs, breakOK mg e := by
  unfold procBullet
  dsimp only
  by_cases hp : memB '(' (pyStrip (line.dropWhile (fun c => memB c bulletStripChars))) = true
  · rw [if_pos hp]
    by_cases hr : (pyStrip (line.dropWhile (fun c => memB c bulletStripChars))).dropWhile
        (fun c => !(c = '(')) ≠ []
    · rw [if_pos hr]
      dsimp only
      exact drawLines_breakOK _ _ _ _
        (drawString_breakOK _ _ _ (drawString_breakOK _ _ _ h))
    · rw [if_neg hr]
      dsimp only
      exact drawString_breakOK _ _ _ (drawString_breakOK _ _ _ h)
  · rw [if_neg hp]
    dsimp only
    exact drawLines_breakOK _ _ _ _ (drawString_breakOK _ _ _ h)

lemma procProse_breakOK {mg : Margins} (W : String → Char → ℤ) (ctw : ℤ)
    (line : List Char) {cv : Canvas} (y : ℤ)
    (h : ∀ e ∈ cv.evs, breakOK mg e) :
    ∀ e ∈ (procProse W mg ctw line cv y).1.evs, breakOK mg e :=
  drawLines_breakOK _ _ _ _ h

lemma bodyLoop_breakOK (W : String → Char → ℤ) {mg : Margins} (ctw : ℤ) :
    ∀ (lines : List (List Char)) (cv : Canvas) (y : ℤ) (a b : Bool),
      (∀ e ∈ cv.evs, breakOK mg e) →
      ∀ e ∈ (bodyLoop W mg ctw lines cv y a b).1.evs, breakOK mg e := by
  intro lines
  induction lines with
  | nil =>
    intro cv y a b h
    exact h
  | cons raw rest ih =>
    intro cv y a b h
    show ∀ e ∈ (bodyLoop W mg ctw (raw :: rest) cv y a b).1.evs, breakOK mg e
    unfold bodyLoop
    dsimp only
    split_ifs with h1 h2
    · exact ih _ _ _ _ h
    · exact ih _ _ _ _ (breakCheck_breakOK _ _ (procBullet_breakOK W ctw _ y _ h))
    · exact ih _ _ _ _ (breakCheck_breakOK _ _ (procProse_breakOK W ctw _ y h))

lemma drawRichLines_breakOK (W : String → Char → ℤ) {mg : Margins} (font : String)
    (underl : Bool) (x : ℤ) :
    ∀ (ls : List (List Char)) (cv : Canvas) (y : ℤ),
      (∀ e ∈ cv.evs, breakOK mg e) →
      ∀ e ∈ (drawRichLines W mg font underl x ls cv y).1.evs, breakOK mg e := by
  intro ls
  induction ls with
  | nil =>
    intro cv y h
    exact h
  | cons l ls ih =>
    intro cv y h
    show ∀ e ∈ (drawRichLines W mg font underl x (l :: ls) cv y).1.evs, breakOK mg e
    unfold drawRichLines
    dsimp only
    cases underl with
    | false => exact ih _ _ (breakCheck_breakOK _ _ (drawString_breakOK _ _ _ h))
    | true =>
      exact ih _ _
        (breakCheck_breakOK _ _ (drawString_breakOK _ _ _ (drawRule_breakOK _ _ _ _ h)))

lemma procRichItem_breakOK (W : String → Char → ℤ) {mg : Margins} (ctw : ℤ)
    (item : RItem) {cv : Canvas} (y : ℤ)
    (h : ∀ e ∈ cv.evs, breakOK mg e) :
    ∀ e ∈ (procRichItem W mg ctw item cv y).1.evs, breakOK mg e := by
  unfold procRichItem
  dsimp only
  exact breakCheck_breakOK _ _ (drawLines_breakOK _ _ _ _ (drawString_breakOK _ _ _ h))

lemma richItemsLoop_breakOK (W : String → Char → ℤ) {mg : Margins} (ctw : ℤ) :
    ∀ (items : List RItem) (cv : Canvas) (y : ℤ),
      (∀ e ∈ cv.evs, breakOK mg e) →
      ∀ e ∈ (richItemsLoop W mg ctw items cv y).1.evs, breakOK mg e := by
  intro items
  induction items with
  | nil =>
    intro cv y h
    exact h
  | cons it its ih =>
    intro cv y h
    exact ih _ _ (procRichItem_breakOK W ctw it y h)

lemma richLoop_breakOK (W : String → Char → ℤ) {mg : Margins} (ctw : ℤ) :
    ∀ (blocks : List RBlock) (cv : Canvas) (y : ℤ),
      (∀ e ∈ cv.evs, breakOK mg e) →
      ∀ e ∈ (richLoop W mg ctw blocks cv y).1.evs, breakOK mg e := by
  intro blocks
  induction blocks with
  | nil =>
    intro cv y h
    exact h
  | cons b bs ih =>
    intro cv y h
    cases b with
    | text content styles =>
      exact ih _ _ (drawRichLines_breakOK W _ _ _ _ _ _ h)
    | parBreak => exact ih _ _ h
    | list items =>
      exact ih _ _ (richItemsLoop_breakOK W ctw items _ _ h)

/-- C3 (amended): in both body paths, and for every input, every page break
the engine performs happens only when the cursor has fallen below the bottom
margin, occurs between drawn lines (each drawn line is an atomic event), and
resets the cursor to `297*mm - top_margin` — the top-of-page offset under the
top margin, which is *not* the page-1 body-start offset `TEXT_START_Y` (see
the counterexample); the current font is restored immediately after the break
(recorded in the break event and in the canvas font state).  In the
plain-text path the check runs once per logical input line, in the rich path
once per wrapped line of a text block and once per list item. -/
theorem C3_break_resets_to_top_margin (W : String → Char → ℤ) (mg : Margins)
    (ctw : ℤ) :
    (∀ (body : List Char) (cv : Canvas), (∀ e ∈ cv.evs, breakOK mg e) →
      ∀ e ∈ ((drawBodyText W mg ctw body cv).1).evs, breakOK mg e) ∧
      (∀ (blocks : List RBlock) (cv : Canvas), (∀ e ∈ cv.evs, breakOK mg e) →
        ∀ e ∈ ((drawRichBodyText W mg ctw blocks cv).1).evs, breakOK mg e) := by
  constructor
  · intro body cv h
    unfold drawBodyText
    split_ifs with hb
    · exact h
    · exact bodyLoop_breakOK W ctw _ _ _ _ _ h
  · intro blocks cv h
    exact richLoop_breakOK W ctw _ _ _ h

/-- The 32-line plain body (greeting plus 31 one-character lines) that
overflows page 1 in the concrete run. -/
def exBody : List Char := joinSep ['\n'] (("sehr geehrte".data) :: List.replicate 31 ['a'])

/-- The reset cursor values of all recorded page breaks, in order. -/
def breakResets (cv : Canvas) : List ℤ :=
  cv.evs.filterMap (fun e => match e with | PEv.pageBreak _ _ r _ => some r | _ => none)

set_option maxRecDepth 200000 in
/-- Counterexample to C3 as stated: in a concrete default-margin run the
single page break resets the cursor to `297*mm - 27*mm = 97200` units
(top-of-page under the top margin), while the configured body-start offset
`TEXT_START_Y` at which page 1's body began is `65520` units — page 2 does
*not* start at the body-start offset. -/
theorem C3_reset_offset_cex :
    breakResets ((drawBodyText W0 defaultMargins defaultCtw exBody freshCanvas).1)
        = [97200] ∧
      TEXT_START_Y = 65520 ∧ (97200 : ℤ) ≠ TEXT_START_Y := by
  exact ⟨by decide, by decide, by decide⟩

set_option maxRecDepth 200000 in
/-- Witness for C3 (amended): the page break of the concrete run satisfies
the amended break property — it fired below the bottom margin and reset to
`297*mm - top_margin`. -/
theorem C3_break_resets_witness :
    breakOK defaultMargins (PEv.pageBreak 1 8624 97200 fontRegular) :=
  (C3_break_resets_to_top_margin W0 defaultMargins defaultCtw).1 exBody freshCanvas
    (by intro e he; simp [freshCanvas] at he)
    (PEv.pageBreak 1 8624 97200 fontRegular) (by decide)
